import Mathlib

/-!
Shallow embedding of `src/lib/local_features.py` (deep-image-matching).

The file models the two classes of the source:

* `LocalFeatures` — an adapter holding the dictionaries `self.kpts` and
  `self.descriptors` (modelled by `FMaps`) and one extraction method per
  backend (`ORB`, `ALIKE`, `DISK`, `SuperPoint`, `KeyNetAffNetHardNet`).
  Each Python method iterates over a list of image paths, mutates the two
  dictionaries in place under the key `im_path.stem`, assigns the local
  variable `laf` inside the loop body, and ends with
  `return self.kpts, self.descriptors, laf`.  Mutation is modelled by
  explicit state passing (`runLoop` / `methodOf`), and the possibility that
  `laf` is still unassigned at the `return` (empty image list) is modelled
  by threading an `Option` for the variable.

* `LocalFeatureExtractor` — a facade whose `run(im0, im1)` loops over the
  two images, dispatches by `getattr(self.detector_and_descriptor,
  self.local_feature)` and collects the three returned components into
  three lists (`runPair`, `runDispatch`).

External libraries (OpenCV, kornia, torch, the ALIKE and SuperPoint
models) are modelled as abstract function parameters; their documented
contracts (for example that `orb.compute` returns as many descriptor rows
as keypoints) appear as explicit hypotheses of the theorems.  Image paths
are modelled by their stem, the only part of the path the adapter logic
inspects.  numpy float arrays appearing in the ORB arithmetic are modelled
over `ℝ`; numpy's round-half-to-even differs from Mathlib's `round` at
exact half-integers, which no claim below depends on (no claim inspects an
individual rounded value).
-/

/-- Python runtime errors that the adapter can let escape: `AttributeError`
(from `getattr` on a missing name, or from `None.shape` when `orb.compute`
returns no descriptors), `TypeError` (calling a non-callable attribute),
`IndexError` (indexing `[0]` / `[-1]` into an empty array), and Python's
`UnboundLocalError` for reading `laf` (or `features`) before assignment. -/
inductive PyErr where
  | attributeError
  | typeError
  | indexError
  | unboundLocal
deriving DecidableEq, Repr

/-- An image path, modelled by its stem: the adapter only ever uses
`Path(im_path).stem` as dictionary key, so the rest of the path is
irrelevant to every claim. -/
structure ImgPath where
  stem : String
deriving DecidableEq, Repr

/-- The pair of dictionaries `self.kpts` and `self.descriptors` of a
`LocalFeatures` instance, as finite maps from the stem key.  `K` and `D`
are the per-backend array types stored as values. -/
@[ext]
structure FMaps (K D : Type) where
  kpts : String → Option K
  descriptors : String → Option D

/-- `self.kpts[im_path.stem] = kpts; self.descriptors[im_path.stem] = des`:
Python dict assignment overwrites any previous entry under the key. -/
def FMaps.insert (s : FMaps K D) (key : String) (k : K) (d : D) : FMaps K D :=
  ⟨fun q => if q = key then some k else s.kpts q,
   fun q => if q = key then some d else s.descriptors q⟩

/-- The dictionaries right after `__init__`: `self.kpts = {}` and
`self.descriptors = {}`. -/
def emptyMaps : FMaps K D := ⟨fun _ => none, fun _ => none⟩

/-- The common `for im_path in images:` loop body shape of the path-based
backend methods: process one image (`step`, which may raise), store the
two computed arrays under the stem key, and assign the loop-local variable
`laf` (tracked as `Option L`: `none` means not yet assigned).  An error
aborts the loop with the mutations made so far kept, as in Python. -/
def runLoop (step : ImgPath → Except PyErr (K × D × L)) :
    FMaps K D → Option L → List ImgPath → FMaps K D × Option L × Option PyErr
  | s, lv, [] => (s, lv, none)
  | s, lv, im :: rest =>
    match step im with
    | .error e => (s, lv, some e)
    | .ok (k, d, l) => runLoop step (s.insert im.stem k d) (some l) rest

/-- A whole path-based backend method: run the loop, then
`return self.kpts, self.descriptors, laf`.  Reading `laf` when the loop
never assigned it raises `UnboundLocalError`; an error from the loop
propagates uncaught. -/
def methodOf (step : ImgPath → Except PyErr (K × D × L)) (s : FMaps K D)
    (ims : List ImgPath) :
    FMaps K D × Except PyErr ((String → Option K) × (String → Option D) × L) :=
  match runLoop step s none ims with
  | (s', _, some e) => (s', .error e)
  | (s', none, none) => (s', .error .unboundLocal)
  | (s', some l, none) => (s', .ok (s'.kpts, s'.descriptors, l))

/-! ### ORB backend (`LocalFeatures.ORB`) -/

/-- An OpenCV keypoint as the adapter uses it: `cv2.KeyPoint_convert`
extracts the two image coordinates.  Coordinates are float32 values,
modelled over `ℚ`. -/
structure OrbKpt where
  x : ℚ
  y : ℚ
deriving DecidableEq, Repr

/-- The external OpenCV detector produced by `cv2.ORB_create(nfeatures,
scaleFactor, ...)`: `detect` models `orb.detect(im, None)` and `compute`
models `orb.compute(im, kp)`, which returns the (possibly filtered)
keypoints together with the 32-byte descriptor matrix — `None` (here
`Option.none`) when there are no keypoints, per OpenCV behaviour.
Descriptor entries are uint8 values, modelled as `ℕ`. -/
structure OrbExt where
  detect : ImgPath → List OrbKpt
  compute : ImgPath → List OrbKpt → List OrbKpt × Option (List (List ℕ))

/-- `np.append(m, col_matrix, axis=1)` for a single extra column: append
one value to each row. -/
def npAppendCol (m : List (List ℚ)) (c : List ℚ) : List (List ℚ) :=
  List.zipWith (fun row v => row ++ [v]) m c

/-- The ORB keypoint post-processing: `cv2.KeyPoint_convert(kp)` giving
the `(k, 2)` coordinate array, then `np.append` of `np.ones((len(kp), 1))`
and of `np.zeros((len(kp), 1))` (the `.astype(np.float32)` casts do not
change the values). -/
def orbKpts (kp : List OrbKpt) : List (List ℚ) :=
  npAppendCol (npAppendCol (kp.map fun p => [p.x, p.y]) (List.replicate kp.length 1))
    (List.replicate kp.length 0)

/-- `np.append(des, np.zeros((des.shape[0], 96)), axis=1)` on one row:
zero-pad the 32-byte descriptor row to 128 columns (the `.astype` cast to
float is the embedding into `ℝ`). -/
def orbPad (r : List ℕ) : List ℝ :=
  (r.map fun (x : ℕ) => (x : ℝ)) ++ List.replicate 96 (0 : ℝ)

/-- Sum of squares of a row, i.e. the square of `np.linalg.norm(row)`. -/
def sumSqR (v : List ℝ) : ℝ := (v.map fun x => x ^ 2).sum

/-- `np.linalg.norm(row)`: the L2 norm of a row. -/
noncomputable def l2normR (v : List ℝ) : ℝ := Real.sqrt (sumSqR v)

/-- `des = np.absolute(des)` on one row. -/
noncomputable def orbAbs (v : List ℝ) : List ℝ := v.map fun x => |x|

/-- `des = des * 512 / np.linalg.norm(des, axis=1).reshape((-1, 1))` on
one row: rescale the row to L2 norm 512. -/
noncomputable def orbScale (v : List ℝ) : List ℝ :=
  v.map fun x => x * 512 / l2normR v

/-- `des = np.round(des)` on one row. -/
noncomputable def orbRound (v : List ℝ) : List ℤ := v.map fun x => round x

/-- `des = np.array(des, dtype=np.uint8)` on one row: cast to uint8,
which wraps modulo 256. -/
def orbU8 (v : List ℤ) : List ℕ := v.map fun z => (z % 256).toNat

/-- The full per-row ORB descriptor pipeline of the source, stages in
source order: pad, absolute value, rescale to norm 512, round, uint8. -/
noncomputable def orbDesRow (r : List ℕ) : List ℕ :=
  orbU8 (orbRound (orbScale (orbAbs (orbPad r))))

/-- The ORB descriptor post-processing applied row-wise to the raw
`orb.compute` output. -/
noncomputable def orbDes (raw : List (List ℕ)) : List (List ℕ) :=
  raw.map orbDesRow

/-- One iteration of the `LocalFeatures.ORB` loop body: detect, compute,
convert/augment the keypoints, post-process the descriptors, with
`laf = None` at the end of the body.  When `orb.compute` returns `None`
descriptors (no keypoints), the line `np.zeros((des.shape[0], 96))`
raises `AttributeError` before anything is stored. -/
noncomputable def orbOne (E : OrbExt) (im : ImgPath) :
    Except PyErr (List (List ℚ) × List (List ℕ) × Option Unit) :=
  match E.compute im (E.detect im) with
  | (kp2, some raw) => .ok (orbKpts kp2, orbDes raw, none)
  | (_, none) => .error .attributeError

/-- `LocalFeatures.ORB(images)` with the external detector `E` standing
for the `cv2.ORB_create(self.n_features, **self.orb_cfg)` instance. -/
noncomputable def orbMethod (E : OrbExt)
    (s : FMaps (List (List ℚ)) (List (List ℕ))) (ims : List ImgPath) :=
  methodOf (orbOne E) s ims

/-! ### DISK backend (`LocalFeatures.DISK`) -/

/-- One element of the per-batch feature list returned by the kornia DISK
model: an object with `keypoints` and `descriptors` fields (the
`.cpu().detach().numpy()` conversions are the identity in the model). -/
structure DiskFeat (K D : Type) where
  keypoints : K
  descriptors : D
deriving DecidableEq, Repr

/-- The externals of the DISK method: `load_torch_image_rgb` composed with
`.to(self.device)` (producing an opaque tensor `T`), and the pretrained
`self.disk` model called as `disk(img, self.n_features,
pad_if_not_divisible=True)`, which returns one feature object per batch
element. -/
structure DiskExt (T K D : Type) where
  loadRGB : ImgPath → T
  forward : T → ℕ → List (DiskFeat K D)

/-- One iteration of the `LocalFeatures.DISK` loop body: load the image,
run the model, take batch element `[0]` (an `IndexError` if the returned
list is empty), store keypoints and descriptors, `laf = None`. -/
def diskOne (E : DiskExt T K D) (nf : ℕ) (im : ImgPath) :
    Except PyErr (K × D × Option Unit) :=
  match E.forward (E.loadRGB im) nf with
  | [] => .error .indexError
  | f :: _ => .ok (f.keypoints, f.descriptors, none)

/-- `LocalFeatures.DISK(images)` (the `torch.inference_mode()` context has
no observable effect in the model). -/
def diskMethod (E : DiskExt T K D) (nf : ℕ) (s : FMaps K D)
    (ims : List ImgPath) :=
  methodOf (diskOne E nf) s ims

/-! ### SuperPoint backend (`LocalFeatures.SuperPoint`) -/

/-- The externals of the SuperPoint method: the per-image construction
`SuperPoint(max_num_keypoints=self.n_features).eval().cuda()` followed by
`load_image(im_path).cuda()` and `extractor.extract(image)`, returning the
batched `feats['keypoints']` (shape `(B, N, 2)`) and `feats['descriptors']`
(shape `(B, N, D)`) arrays, modelled as nested lists. -/
structure SpExt (α β : Type) where
  extract : ℕ → ImgPath → List (List (List α)) × List (List (List β))

/-- `arr.reshape(-1, arr.shape[-1])` on a batched `(B, N, C)` array:
flatten the leading axes, keeping the last; on nested lists this is the
concatenation of the batch elements. -/
def npReshapeLast (t : List (List γ)) : List γ := t.flatten

/-- One iteration of the `LocalFeatures.SuperPoint` loop body: extract,
reshape both arrays to two dimensions, store them, `laf = None`. -/
def spOne (E : SpExt α β) (nf : ℕ) (im : ImgPath) :
    Except PyErr (List (List α) × List (List β) × Option Unit) :=
  let kd := E.extract nf im
  .ok (npReshapeLast kd.1, npReshapeLast kd.2, none)

/-- `LocalFeatures.SuperPoint(images)`. -/
def spMethod (E : SpExt α β) (nf : ℕ) (s : FMaps (List (List α)) (List (List β)))
    (ims : List ImgPath) :=
  methodOf (spOne E nf) s ims

/-! ### KeyNetAffNetHardNet backend (`LocalFeatures.KeyNetAffNetHardNet`) -/

/-- The tuple returned by `KF.KeyNetAffNetHardNet(...).forward(img)`:
`keypts[0]` is the LAF tensor of shape `(B, N, 2, 3)`, `keypts[1]` the
response tensor (unused, opaque type `ρ`), `keypts[2]` the descriptor
tensor of shape `(B, N, D)`. -/
structure KnOut (α ρ : Type) where
  laf : List (List (List (List α)))
  resp : ρ
  desc : List (List (List α))

/-- The externals of the KeyNetAffNetHardNet method: `self.load_torch_image`
composed with `.to(self.device)` and the per-image
`KF.KeyNetAffNetHardNet(num_features=self.n_features, upright=True,
device=...)` forward pass. -/
structure KnExt (α ρ : Type) where
  forward : ℕ → ImgPath → KnOut α ρ

/-- numpy `arr[-1]`: the last element along the first axis, an
`IndexError` when that axis is empty. -/
def lastE (l : List γ) : Except PyErr γ :=
  match l.getLast? with
  | some x => .ok x
  | none => .error .indexError

/-- The slicing `keypts[0].cpu().detach().numpy()[-1, :, :, -1]` that
produces the stored keypoint array: last batch element of the `(B, N, 2, 3)`
LAF tensor, then the last column of each keypoint's `2 × 3` affine frame
(its translation, i.e. the `(x, y)` position). -/
def knSliceKpts (laf4 : List (List (List (List α)))) :
    Except PyErr (List (List α)) := do
  let lb ← lastE laf4
  lb.mapM fun kpMat => kpMat.mapM fun row => lastE row

/-- One iteration of the `LocalFeatures.KeyNetAffNetHardNet` loop body:
forward pass, `laf = keypts[0].cpu().detach().numpy()` (the full LAF
tensor), stored keypoints `keypts[0].numpy()[-1, :, :, -1]`, stored
descriptors `keypts[2].numpy()[-1, :, :]`. -/
def knOne (E : KnExt α ρ) (nf : ℕ) (im : ImgPath) :
    Except PyErr (List (List α) × List (List α) × List (List (List (List α)))) := do
  let kp ← knSliceKpts (E.forward nf im).laf
  let d ← lastE (E.forward nf im).desc
  .ok (kp, d, (E.forward nf im).laf)

/-- `LocalFeatures.KeyNetAffNetHardNet(images)`; the returned `laf` is the
full per-iteration LAF tensor of the last processed image. -/
def knMethod (E : KnExt α ρ) (nf : ℕ)
    (s : FMaps (List (List α)) (List (List α))) (ims : List ImgPath) :=
  methodOf (knOne E nf) s ims

/-! ### ALIKE backend (`LocalFeatures.ALIKE`) -/

/-- The dictionary returned by the ALIKE model call
`self.model(img, sub_pixel=...)`: only the keys `"keypoints"` and
`"descriptors"` are read. -/
structure AlFeat (K D : Type) where
  keypoints : K
  descriptors : D
deriving DecidableEq, Repr

/-- `LocalFeatures.ALIKE(images)`: unlike every other backend, `images`
are pre-loaded arrays (opaque type `I`), nothing is written to `self.kpts`
or `self.descriptors`, and the return value is
`features["keypoints"], features["descriptors"], laf` where `features`
holds the result for the *last* image of the loop.  With an empty image
list, `features` is read before assignment: `UnboundLocalError`. -/
def alikeMethod (model : I → AlFeat K D) (s : FMaps K' D') (ims : List I) :
    FMaps K' D' × Except PyErr (K × D × Option Unit) :=
  match ims.foldl (fun _ img => some (model img)) none with
  | none => (s, .error .unboundLocal)
  | some f => (s, .ok (f.keypoints, f.descriptors, none))

/-! ### Facade (`LocalFeatureExtractor`) -/

/-- `LocalFeatureExtractor.run(im0, im1)`: loop over `[im0, im1]`, call the
dispatched backend method on the one-element list `[img]`, and append the
three returned components to the lists `keypoints`, `descriptors`, `lafs`.
An uncaught error from a backend call propagates. -/
def runPair (extract : σ → List I → σ × Except PyErr (A × B × C)) (s : σ)
    (im0 im1 : I) : σ × Except PyErr (List A × List B × List C) :=
  match extract s [im0] with
  | (s1, .error e) => (s1, .error e)
  | (s1, .ok t0) =>
    match extract s1 [im1] with
    | (s2, .error e) => (s2, .error e)
    | (s2, .ok t1) =>
      (s2, .ok ([t0.1, t1.1], [t0.2.1, t1.2.1], [t0.2.2, t1.2.2]))

/-! ### Attribute dispatch (`getattr(self.detector_and_descriptor, self.local_feature)`) -/

/-- The five backend method names the spec regards as legal. -/
def backendNames : List String :=
  ["ALIKE", "ORB", "DISK", "KeyNetAffNetHardNet", "SuperPoint"]

/-- The callable attributes defined in the `LocalFeatures` class body. -/
def classMethodAttrs : List String :=
  ["__init__", "load_torch_image", "load_torch_image_rgb",
   "ORB", "ALIKE", "DISK", "SuperPoint", "KeyNetAffNetHardNet"]

/-- The instance attributes assigned by `LocalFeatures.__init__` for a
given method string: the four unconditional assignments, plus the
branch-specific ones (note the source's `DISK` branch assigns
`self.orb_cfg`).  For a method string matching no branch, `__init__`
performs only the four base assignments and returns normally — there is
no name validation.  (Attributes inherited from `object`, such as
dunder names, are outside the model.) -/
def instanceDataAttrs (method : String) : List String :=
  ["n_features", "method", "kpts", "descriptors"] ++
    (if method = "ALIKE" then ["alike_cfg", "model"]
     else if method = "ORB" then ["orb_cfg"]
     else if method = "DISK" then ["orb_cfg", "device", "disk"]
     else if method = "KeyNetAffNetHardNet" then ["kornia_cfg", "device"]
     else if method = "SuperPoint" then ["kornia_cfg"]
     else [])

/-- Outcome of `extract = getattr(obj, name)` followed by the call
`extract([img])` in `LocalFeatureExtractor.run`: a missing attribute
raises `AttributeError` at the `getattr`; a data attribute (a dict, an
int, ...) is found by `getattr` but the call then raises `TypeError`;
a method attribute dispatches to that method. -/
inductive LookupResult where
  | methodFound (name : String)
  | notCallable
  | attrError
deriving DecidableEq, Repr

/-- The dispatch of the first `run` call for a configured method string:
`getattr(self.detector_and_descriptor, self.local_feature)` and the
subsequent call. -/
def runDispatch (method : String) : LookupResult :=
  if method ∈ classMethodAttrs then .methodFound method
  else if method ∈ instanceDataAttrs method then .notCallable
  else .attrError

/-! ### Concrete instantiations of the external models, used by witnesses
and counterexamples -/

/-- A concrete DISK external: every image yields one batch element with a
single keypoint row and a single descriptor row, over `ℚ` so that results
evaluate. -/
def cexDiskExt : DiskExt Unit (List (List ℚ)) (List (List ℚ)) :=
  ⟨fun _ => (), fun _ _ => [⟨[[1, 2]], [[3]]⟩]⟩

/-- The state after `cexDiskExt` has processed the image with stem `a`. -/
def cexSA : FMaps (List (List ℚ)) (List (List ℚ)) :=
  FMaps.insert emptyMaps "a" [[1, 2]] [[3]]

/-- The state after `cexDiskExt` has processed stems `a` then `b`. -/
def cexSB : FMaps (List (List ℚ)) (List (List ℚ)) :=
  FMaps.insert cexSA "b" [[1, 2]] [[3]]

/-- A concrete ALIKE model over pre-loaded images of type `Unit`. -/
def cexAlModel : Unit → AlFeat (List (List ℚ)) (List (List ℚ)) :=
  fun _ => ⟨[[1, 2]], [[3]]⟩

/-- A concrete image path used by witnesses. -/
def wIm : ImgPath := ⟨"w"⟩

/-- A concrete raw 32-byte ORB descriptor matrix with one row whose L2
norm is 5 (entries 3 and 4, then thirty zeros). -/
def wRaw : List (List ℕ) := [[3, 4] ++ List.replicate 30 0]

/-- A concrete OpenCV ORB external: one detected keypoint, descriptor
matrix `wRaw`. -/
def wOrbExt : OrbExt :=
  ⟨fun _ => [⟨1, 2⟩], fun _ kp => (kp, some wRaw)⟩

/-- A concrete OpenCV ORB external detecting no keypoints: `orb.compute`
on an empty keypoint list returns `None` descriptors. -/
def wOrbExtE : OrbExt :=
  ⟨fun _ => [], fun _ _ => ([], none)⟩

/-- A concrete KeyNetAffNetHardNet external: one batch element, one
keypoint with LAF `[[5, 6, 7], [8, 9, 10]]` (so the sliced position is
`[7, 10]`) and descriptor row `[11, 12]`. -/
def wKnExt : KnExt ℚ Unit :=
  ⟨fun _ _ => ⟨[[[[5, 6, 7], [8, 9, 10]]]], (), [[[11, 12]]]⟩⟩

/-- The adapter state after `wKnExt` has processed the image `wIm`. -/
def wKnS : FMaps (List (List ℚ)) (List (List ℚ)) :=
  FMaps.insert emptyMaps "w" [[7, 10]] [[11, 12]]

/-! ### Helper lemmas on the state and the loop -/

theorem FMaps.insert_idem (s : FMaps K D) (key : String) (k : K) (d : D) :
    (s.insert key k d).insert key k d = s.insert key k d := by
  ext q
  · simp only [FMaps.insert]
    split <;> rfl
  · simp only [FMaps.insert]
    split <;> rfl

theorem methodOf_nil (step : ImgPath → Except PyErr (K × D × L)) (s : FMaps K D) :
    methodOf step s [] = (s, .error .unboundLocal) := rfl

theorem methodOf_single_ok (step : ImgPath → Except PyErr (K × D × L))
    (s : FMaps K D) (im : ImgPath) (k : K) (d : D) (l : L)
    (h : step im = .ok (k, d, l)) :
    methodOf step s [im] =
      (s.insert im.stem k d,
       .ok ((s.insert im.stem k d).kpts, (s.insert im.stem k d).descriptors, l)) := by
  simp [methodOf, runLoop, h]

theorem methodOf_single_err (step : ImgPath → Except PyErr (K × D × L))
    (s : FMaps K D) (im : ImgPath) (e : PyErr) (h : step im = .error e) :
    methodOf step s [im] = (s, .error e) := by
  simp [methodOf, runLoop, h]

/-- Calling a path-based backend method twice on the same single image
gives the same state and the same result as calling it once: the second
call recomputes the same arrays and overwrites the same key. -/
theorem methodOf_single_idem (step : ImgPath → Except PyErr (K × D × L))
    (s : FMaps K D) (im : ImgPath) :
    methodOf step (methodOf step s [im]).1 [im] = methodOf step s [im] := by
  cases h : step im with
  | error e =>
    rw [methodOf_single_err step s im e h, methodOf_single_err step s im e h]
  | ok t =>
    obtain ⟨k, d, l⟩ := t
    rw [methodOf_single_ok step s im k d l h, methodOf_single_ok step _ im k d l h,
      FMaps.insert_idem]

theorem methodOf_fst (step : ImgPath → Except PyErr (K × D × L)) (s : FMaps K D)
    (ims : List ImgPath) : (methodOf step s ims).1 = (runLoop step s none ims).1 := by
  unfold methodOf
  rcases h : runLoop step s none ims with ⟨s', lv, er⟩
  cases er <;> cases lv <;> simp

theorem methodOf_ok_inv (step : ImgPath → Except PyErr (K × D × L)) (s s' : FMaps K D)
    (ims : List ImgPath) (r : (String → Option K) × (String → Option D) × L)
    (h : methodOf step s ims = (s', .ok r)) :
    runLoop step s none ims = (s', some r.2.2, none) ∧
      r.1 = s'.kpts ∧ r.2.1 = s'.descriptors := by
  unfold methodOf at h
  rcases hr : runLoop step s none ims with ⟨s0, lv, er⟩
  rw [hr] at h
  cases er with
  | some e => simp at h
  | none =>
    cases lv with
    | none => simp at h
    | some l =>
      simp only [Prod.mk.injEq, Except.ok.injEq] at h
      obtain ⟨h1, h2⟩ := h
      subst h1
      subst h2
      exact ⟨rfl, rfl, rfl⟩

/-- A key that is the stem of no image in the list is untouched by the
loop. -/
theorem runLoop_untouched (step : ImgPath → Except PyErr (K × D × L)) :
    ∀ (ims : List ImgPath) (s : FMaps K D) (lv : Option L) (q : String),
      q ∉ ims.map ImgPath.stem →
      (runLoop step s lv ims).1.kpts q = s.kpts q ∧
        (runLoop step s lv ims).1.descriptors q = s.descriptors q := by
  intro ims
  induction ims with
  | nil => intro s lv q _; exact ⟨rfl, rfl⟩
  | cons im rest ih =>
    intro s lv q hq
    simp only [List.map_cons, List.mem_cons, not_or] at hq
    obtain ⟨hq1, hq2⟩ := hq
    cases h : step im with
    | error e => simp [runLoop, h]
    | ok t =>
      obtain ⟨k, d, l⟩ := t
      simp only [runLoop, h]
      have := ih (s.insert im.stem k d) (some l) q hq2
      refine ⟨this.1.trans ?_, this.2.trans ?_⟩
      · simp [FMaps.insert, hq1]
      · simp [FMaps.insert, hq1]

/-- A key already present stays present through the loop. -/
theorem runLoop_isSome (step : ImgPath → Except PyErr (K × D × L)) :
    ∀ (ims : List ImgPath) (s : FMaps K D) (lv : Option L) (q : String),
      (s.kpts q).isSome → (s.descriptors q).isSome →
      ((runLoop step s lv ims).1.kpts q).isSome ∧
        ((runLoop step s lv ims).1.descriptors q).isSome := by
  intro ims
  induction ims with
  | nil => intro s lv q h1 h2; exact ⟨h1, h2⟩
  | cons im rest ih =>
    intro s lv q h1 h2
    cases h : step im with
    | error e => simp only [runLoop, h]; exact ⟨h1, h2⟩
    | ok t =>
      obtain ⟨k, d, l⟩ := t
      simp only [runLoop, h]
      refine ih (s.insert im.stem k d) (some l) q ?_ ?_
      · simp only [FMaps.insert]
        split
        · rfl
        · exact h1
      · simp only [FMaps.insert]
        split
        · rfl
        · exact h2

/-- Every image processed by an error-free loop run ends up with an entry
in both dictionaries. -/
theorem runLoop_mem_isSome (step : ImgPath → Except PyErr (K × D × L)) :
    ∀ (ims : List ImgPath) (s : FMaps K D) (lv : Option L) (s' : FMaps K D)
      (lv' : Option L),
      runLoop step s lv ims = (s', lv', none) →
      ∀ im ∈ ims, (s'.kpts im.stem).isSome ∧ (s'.descriptors im.stem).isSome := by
  intro ims
  induction ims with
  | nil => intro s lv s' lv' _ im him; exact absurd him (List.not_mem_nil im)
  | cons im0 rest ih =>
    intro s lv s' lv' h im him
    cases hs : step im0 with
    | error e => simp [runLoop, hs] at h
    | ok t =>
      obtain ⟨k, d, l⟩ := t
      simp only [runLoop, hs] at h
      rcases List.mem_cons.mp him with h0 | h0
      · subst h0
        have h1 : ((s.insert im.stem k d).kpts im.stem).isSome := by
          simp [FMaps.insert]
        have h2 : ((s.insert im.stem k d).descriptors im.stem).isSome := by
          simp [FMaps.insert]
        have := runLoop_isSome step rest (s.insert im.stem k d) (some l) im.stem h1 h2
        rw [h] at this
        exact this
      · exact ih (s.insert im0.stem k d) (some l) s' lv' h im h0

/-- When the stems are pairwise distinct, an error-free loop run leaves,
under each image's stem, exactly the arrays the step computed for that
image. -/
theorem runLoop_values_nodup (step : ImgPath → Except PyErr (K × D × L)) :
    ∀ (ims : List ImgPath) (s : FMaps K D) (lv : Option L) (s' : FMaps K D)
      (lv' : Option L),
      (ims.map ImgPath.stem).Nodup →
      runLoop step s lv ims = (s', lv', none) →
      ∀ im ∈ ims, ∀ k d l, step im = .ok (k, d, l) →
        s'.kpts im.stem = some k ∧ s'.descriptors im.stem = some d := by
  intro ims
  induction ims with
  | nil => intro s lv s' lv' _ _ im him; exact absurd him (List.not_mem_nil im)
  | cons im0 rest ih =>
    intro s lv s' lv' hnd h im him k d l hstep
    simp only [List.map_cons, List.nodup_cons] at hnd
    obtain ⟨hnd1, hnd2⟩ := hnd
    cases hs : step im0 with
    | error e => simp [runLoop, hs] at h
    | ok t =>
      obtain ⟨k0, d0, l0⟩ := t
      simp only [runLoop, hs] at h
      rcases List.mem_cons.mp him with h0 | h0
      · subst h0
        rw [hstep] at hs
        simp only [Except.ok.injEq, Prod.mk.injEq] at hs
        obtain ⟨hk, hd, hl⟩ := hs
        have hunt := runLoop_untouched step rest (s.insert im.stem k0 d0) (some l0)
          im.stem hnd1
        rw [h] at hunt
        refine ⟨hunt.1.trans ?_, hunt.2.trans ?_⟩
        · simp [FMaps.insert, hk]
        · simp [FMaps.insert, hd]
      · exact ih (s.insert im0.stem k0 d0) (some l0) s' lv' hnd2 h im h0 k d l hstep

/-- In an error-free loop run over a nonempty list, the final `laf`
variable holds the value computed for the last image, and that image's
computed arrays are the stored ones. -/
theorem runLoop_last (step : ImgPath → Except PyErr (K × D × L)) :
    ∀ (ims : List ImgPath) (s : FMaps K D) (lv : Option L) (s' : FMaps K D)
      (l : L),
      runLoop step s lv ims = (s', some l, none) →
      (ims = [] ∧ s' = s ∧ lv = some l) ∨
        ∃ im k d, ims.getLast? = some im ∧ step im = .ok (k, d, l) ∧
          s'.kpts im.stem = some k ∧ s'.descriptors im.stem = some d := by
  intro ims
  induction ims with
  | nil =>
    intro s lv s' l h
    simp only [runLoop, Prod.mk.injEq] at h
    exact Or.inl ⟨rfl, h.1.symm, h.2.1⟩
  | cons im0 rest ih =>
    intro s lv s' l h
    cases hs : step im0 with
    | error e => simp [runLoop, hs] at h
    | ok t =>
      obtain ⟨k0, d0, l0⟩ := t
      simp only [runLoop, hs] at h
      rcases ih (s.insert im0.stem k0 d0) (some l0) s' l h with h1 | h1
      · obtain ⟨hrest, hs', hl⟩ := h1
        subst hrest
        injection hl with hll
        refine Or.inr ⟨im0, k0, d0, by simp, ?_, ?_, ?_⟩
        · rw [hs, hll]
        · rw [hs']
          simp [FMaps.insert]
        · rw [hs']
          simp [FMaps.insert]
      · obtain ⟨im, k, d, hlast, hrest⟩ := h1
        refine Or.inr ⟨im, k, d, ?_, hrest⟩
        cases rest with
        | nil => simp at hlast
        | cons b bs => rw [List.getLast?_cons_cons]; exact hlast

/-- Every value the `laf` variable can hold after the loop satisfies any
property satisfied by all values the step can assign to it. -/
theorem runLoop_laf_inv (step : ImgPath → Except PyErr (K × D × L)) (P : L → Prop)
    (hstep : ∀ im k d l, step im = .ok (k, d, l) → P l) :
    ∀ (ims : List ImgPath) (s : FMaps K D) (lv : Option L) (s' : FMaps K D)
      (lv' : Option L) (er : Option PyErr),
      runLoop step s lv ims = (s', lv', er) →
      (∀ l0, lv = some l0 → P l0) → ∀ l, lv' = some l → P l := by
  intro ims
  induction ims with
  | nil =>
    intro s lv s' lv' er h hlv l hl
    simp only [runLoop, Prod.mk.injEq] at h
    exact hlv l (h.2.1 ▸ hl)
  | cons im0 rest ih =>
    intro s lv s' lv' er h hlv l hl
    cases hs : step im0 with
    | error e =>
      simp only [runLoop, hs, Prod.mk.injEq] at h
      exact hlv l (h.2.1 ▸ hl)
    | ok t =>
      obtain ⟨k0, d0, l0⟩ := t
      simp only [runLoop, hs] at h
      refine ih (s.insert im0.stem k0 d0) (some l0) s' lv' er h ?_ l hl
      intro l1 hl1
      rw [Option.some.injEq] at hl1
      exact hl1 ▸ hstep im0 k0 d0 l0 hs

/-- Row-alignment invariant of the two dictionaries: for every key, either
both dictionaries lack the key, or both hold arrays with the same number
of rows (claim C6's "row-aligned correspondence"). -/
def alignedMaps (s : FMaps (List κ) (List δ)) : Prop :=
  ∀ q, (s.kpts q).map List.length = (s.descriptors q).map List.length

/-- If every successful step produces equally many keypoint and descriptor
rows, the loop preserves the row-alignment invariant. -/
theorem runLoop_aligned (step : ImgPath → Except PyErr (List κ × List δ × L)) :
    ∀ (ims : List ImgPath),
      (∀ im ∈ ims, ∀ k d l, step im = .ok (k, d, l) → k.length = d.length) →
      ∀ (s : FMaps (List κ) (List δ)) (lv : Option L),
        alignedMaps s → alignedMaps (runLoop step s lv ims).1 := by
  intro ims
  induction ims with
  | nil => intro _ s lv hs; exact hs
  | cons im0 rest ih =>
    intro hstep s lv hs
    cases h : step im0 with
    | error e => simp only [runLoop, h]; exact hs
    | ok t =>
      obtain ⟨k, d, l⟩ := t
      simp only [runLoop, h]
      refine ih (fun im him => hstep im (List.mem_cons_of_mem im0 him)) _ (some l) ?_
      intro q
      simp only [FMaps.insert]
      split
      · simp [hstep im0 (List.mem_cons_self im0 rest) k d l h]
      · exact hs q

/-! ### Helper lemmas: ORB arithmetic -/

theorem npAppendCol_map_replicate (f : γ → List ℚ) (c : ℚ) (l : List γ) :
    npAppendCol (l.map f) (List.replicate l.length c) = l.map fun p => f p ++ [c] := by
  induction l with
  | nil => rfl
  | cons a l ih =>
    simp only [npAppendCol, List.map_cons, List.length_cons, List.replicate_succ,
      List.zipWith_cons_cons] at *
    exact congrArg _ ih

/-- The ORB keypoint array is, row for row, `[x, y, 1, 0]`. -/
theorem orbKpts_eq_map (kp : List OrbKpt) :
    orbKpts kp = kp.map fun p => [p.x, p.y, 1, 0] := by
  unfold orbKpts
  rw [npAppendCol_map_replicate (fun p => [p.x, p.y]) 1 kp,
    npAppendCol_map_replicate (fun p => [p.x, p.y] ++ [(1 : ℚ)]) 0 kp]
  simp

theorem orbKpts_length (kp : List OrbKpt) : (orbKpts kp).length = kp.length := by
  rw [orbKpts_eq_map]
  exact List.length_map kp _

theorem orbDes_length (raw : List (List ℕ)) : (orbDes raw).length = raw.length :=
  List.length_map raw _

theorem orbDesRow_length (r : List ℕ) (h : r.length = 32) :
    (orbDesRow r).length = 128 := by
  unfold orbDesRow orbU8 orbRound orbScale orbAbs orbPad
  rw [List.length_map, List.length_map, List.length_map, List.length_map,
    List.length_append, List.length_map, List.length_replicate, h]

/-- Every entry of a uint8-cast row lies in `[0, 255]`. -/
theorem orbU8_le (v : List ℤ) : ∀ x ∈ orbU8 v, x ≤ 255 := by
  intro x hx
  simp only [orbU8, List.mem_map] at hx
  obtain ⟨z, _, hz⟩ := hx
  have h1 : z % 256 < 256 := Int.emod_lt_of_pos z (by norm_num)
  have h2 : 0 ≤ z % 256 := Int.emod_nonneg z (by norm_num)
  omega

theorem sumSqR_nonneg (v : List ℝ) : 0 ≤ sumSqR v := by
  apply List.sum_nonneg
  intro x hx
  simp only [List.mem_map] at hx
  obtain ⟨y, _, hy⟩ := hx
  exact hy ▸ sq_nonneg y

theorem sumSqR_pos_of_mem (v : List ℝ) (x : ℝ) (hx : x ∈ v) (hnz : x ≠ 0) :
    0 < sumSqR v := by
  have hmem : x ^ 2 ∈ v.map fun y => y ^ 2 := List.mem_map_of_mem _ hx
  have hle : x ^ 2 ≤ sumSqR v := by
    apply List.single_le_sum _ _ hmem
    intro y hy
    simp only [List.mem_map] at hy
    obtain ⟨z, _, hz⟩ := hy
    exact hz ▸ sq_nonneg z
  exact lt_of_lt_of_le (pow_pos (abs_pos.mpr hnz) 2 |>.trans_le (by rw [sq_abs])) hle

/-- The row produced by the rescaling step has L2 norm exactly 512,
provided the incoming row is not identically zero. -/
theorem l2normR_orbScale (v : List ℝ) (hv : 0 < sumSqR v) :
    l2normR (orbScale v) = 512 := by
  have hn : 0 < l2normR v := Real.sqrt_pos.mpr hv
  have hS : Real.sqrt ((List.map (fun x => x ^ 2) v).sum) = l2normR v := rfl
  unfold l2normR orbScale sumSqR
  rw [List.map_map]
  have hfun : ((fun x => x ^ 2) ∘ fun x => x * 512 / l2normR v) =
      fun x => (512 / l2normR v) ^ 2 * x ^ 2 := by
    funext x
    simp only [Function.comp_apply]
    ring
  rw [hfun, List.sum_map_mul_left, Real.sqrt_mul (sq_nonneg _),
    Real.sqrt_sq (by positivity)]
  rw [hS, div_mul_cancel₀ 512 (ne_of_gt hn)]

/-- A nonzero natural entry of the raw row survives padding and absolute
value as a nonzero real entry. -/
theorem sumSqR_orbAbs_orbPad_pos (r : List ℕ) (x : ℕ) (hx : x ∈ r) (hnz : x ≠ 0) :
    0 < sumSqR (orbAbs (orbPad r)) := by
  have h1 : (x : ℝ) ∈ r.map fun y => ((y : ℕ) : ℝ) := List.mem_map_of_mem _ hx
  have h2 : (x : ℝ) ∈ orbPad r := List.mem_append_left _ h1
  have h3 : |(x : ℝ)| ∈ orbAbs (orbPad r) := List.mem_map_of_mem _ h2
  refine sumSqR_pos_of_mem _ _ h3 ?_
  exact abs_ne_zero.mpr (Nat.cast_ne_zero.mpr hnz)

/-! ### Helper lemmas: KeyNet and SuperPoint externals -/

theorem lastE_ok_iff (l : List γ) (x : γ) : lastE l = .ok x ↔ l.getLast? = some x := by
  unfold lastE
  cases l.getLast? <;> simp

theorem mapM_ok_length (f : γ → Except PyErr γ') :
    ∀ (l : List γ) (l' : List γ'), l.mapM f = .ok l' → l'.length = l.length := by
  intro l
  induction l with
  | nil =>
    intro l' h
    simp only [List.mapM_nil, pure, Except.pure] at h
    injection h with h
    rw [← h]
    rfl
  | cons a l ih =>
    intro l' h
    rw [List.mapM_cons] at h
    cases ha : f a with
    | error e => rw [ha] at h; simp [Bind.bind, Except.bind] at h
    | ok b =>
      rw [ha] at h
      cases hl : l.mapM f with
      | error e =>
        rw [hl] at h
        simp [Bind.bind, Except.bind, pure, Except.pure] at h
      | ok bs =>
        rw [hl] at h
        simp only [Bind.bind, Except.bind, pure, Except.pure] at h
        injection h with h
        rw [← h]
        simp [ih bs hl]

theorem knSliceKpts_length (laf4 : List (List (List (List α)))) (kp : List (List α))
    (lb : List (List (List α))) (hlast : laf4.getLast? = some lb)
    (h : knSliceKpts laf4 = .ok kp) : kp.length = lb.length := by
  unfold knSliceKpts at h
  rw [show lastE laf4 = .ok lb from (lastE_ok_iff laf4 lb).mpr hlast] at h
  simp only [Bind.bind, Except.bind] at h
  exact mapM_ok_length _ lb kp h

/-- Inversion of a successful `knOne` call: the components are the slices
of the forward pass output, and the returned LAF is the full tensor. -/
theorem knOne_ok_inv (E : KnExt α ρ) (nf : ℕ) (im : ImgPath)
    (kp d : List (List α)) (laf4 : List (List (List (List α))))
    (h : knOne E nf im = .ok (kp, d, laf4)) :
    knSliceKpts (E.forward nf im).laf = .ok kp ∧
      lastE (E.forward nf im).desc = .ok d ∧ laf4 = (E.forward nf im).laf := by
  unfold knOne at h
  cases h1 : knSliceKpts (E.forward nf im).laf with
  | error e => rw [h1] at h; simp [Bind.bind, Except.bind] at h
  | ok kp0 =>
    rw [h1] at h
    cases h2 : lastE (E.forward nf im).desc with
    | error e =>
      rw [h2] at h
      simp [Bind.bind, Except.bind] at h
    | ok d0 =>
      rw [h2] at h
      simp only [Bind.bind, Except.bind, pure, Except.pure, Except.ok.injEq,
        Prod.mk.injEq] at h
      obtain ⟨hk, hd, hl⟩ := h
      exact ⟨congrArg Except.ok hk, congrArg Except.ok hd, hl.symm⟩

/-- Two batched arrays whose batch elements pairwise agree in length have
flattenings of the same length. -/
theorem flatten_length_eq_of_forall2 (l1 : List (List γ)) (l2 : List (List γ')) 
    (h : List.Forall₂ (fun a b => a.length = b.length) l1 l2) :
    l1.flatten.length = l2.flatten.length := by
  induction h with
  | nil => rfl
  | cons hab _ ih => simp [hab, ih]

/-! ### Helper lemmas: ORB and ALIKE step inversion -/

theorem orbOne_ok (E : OrbExt) (im : ImgPath) (kp2 : List OrbKpt)
    (raw : List (List ℕ)) (hc : E.compute im (E.detect im) = (kp2, some raw)) :
    orbOne E im = .ok (orbKpts kp2, orbDes raw, none) := by
  simp only [orbOne, hc]

theorem orbOne_err (E : OrbExt) (im : ImgPath) (hdet : E.detect im = [])
    (hcomp : E.compute im [] = ([], none)) :
    orbOne E im = .error .attributeError := by
  simp only [orbOne, hdet, hcomp]

theorem orbOne_rows (E : OrbExt) (im : ImgPath)
    (hrows : ∀ kp2 raw, E.compute im (E.detect im) = (kp2, some raw) →
      raw.length = kp2.length) :
    ∀ k d l, orbOne E im = .ok (k, d, l) → k.length = d.length := by
  intro k d l h
  rcases hc : E.compute im (E.detect im) with ⟨kp2, desOpt⟩
  unfold orbOne at h
  rw [hc] at h
  cases desOpt with
  | none => simp at h
  | some raw =>
    simp only [Except.ok.injEq, Prod.mk.injEq] at h
    obtain ⟨hkk, hdd, _⟩ := h
    rw [← hkk, ← hdd, orbKpts_length, orbDes_length, hrows kp2 raw hc]

theorem alikeMethod_fst (model : I → AlFeat K D) (s : FMaps K' D') (ims : List I) :
    (alikeMethod model s ims).1 = s := by
  unfold alikeMethod
  cases ims.foldl (fun _ img => some (model img)) none <;> rfl

/-! ### Claim theorems -/

/-- Claim C10: for the ORB, DISK, SuperPoint and KeyNetAffNetHardNet
methods, calling with an empty list of images raises an
unbound-local-variable error at the return statement (the `laf` variable
is only assigned inside the per-image loop) instead of returning the
current mappings with a null LAF: a non-empty image list is an unchecked
precondition of these methods. -/
theorem C10_empty_images_unbound_local :
    (∀ (E : OrbExt) (s : FMaps (List (List ℚ)) (List (List ℕ))),
      orbMethod E s [] = (s, .error .unboundLocal)) ∧
    (∀ (T K D : Type) (E : DiskExt T K D) (nf : ℕ) (s : FMaps K D),
      diskMethod E nf s [] = (s, .error .unboundLocal)) ∧
    (∀ (α β : Type) (E : SpExt α β) (nf : ℕ)
      (s : FMaps (List (List α)) (List (List β))),
      spMethod E nf s [] = (s, .error .unboundLocal)) ∧
    (∀ (α ρ : Type) (E : KnExt α ρ) (nf : ℕ)
      (s : FMaps (List (List α)) (List (List α))),
      knMethod E nf s [] = (s, .error .unboundLocal)) :=
  ⟨fun _ _ => rfl, fun _ _ _ _ _ _ => rfl, fun _ _ _ _ _ => rfl,
   fun _ _ _ _ _ => rfl⟩

/-- Claim C7: for every backend that stores results by filename stem (ORB,
DISK, SuperPoint, KeyNetAffNetHardNet), calling the extraction method
twice in succession on the same image leaves the adapter's mappings (and
the returned value) exactly as after one call: the second call overwrites
the entry under that image's stem with the same recomputed arrays. -/
theorem C7_repeated_call_overwrites :
    (∀ (E : OrbExt) (s : FMaps (List (List ℚ)) (List (List ℕ))) (im : ImgPath),
      orbMethod E (orbMethod E s [im]).1 [im] = orbMethod E s [im]) ∧
    (∀ (T K D : Type) (E : DiskExt T K D) (nf : ℕ) (s : FMaps K D) (im : ImgPath),
      diskMethod E nf (diskMethod E nf s [im]).1 [im] = diskMethod E nf s [im]) ∧
    (∀ (α β : Type) (E : SpExt α β) (nf : ℕ)
      (s : FMaps (List (List α)) (List (List β))) (im : ImgPath),
      spMethod E nf (spMethod E nf s [im]).1 [im] = spMethod E nf s [im]) ∧
    (∀ (α ρ : Type) (E : KnExt α ρ) (nf : ℕ)
      (s : FMaps (List (List α)) (List (List α))) (im : ImgPath),
      knMethod E nf (knMethod E nf s [im]).1 [im] = knMethod E nf s [im]) :=
  ⟨fun E s im => methodOf_single_idem (orbOne E) s im,
   fun _ _ _ E nf s im => methodOf_single_idem (diskOne E nf) s im,
   fun _ _ E nf s im => methodOf_single_idem (spOne E nf) s im,
   fun _ _ E nf s im => methodOf_single_idem (knOne E nf) s im⟩

/-- Claim C9: for the ORB backend, an image from which zero keypoints are
detected does not yield empty keypoint/descriptor arrays: `orb.compute`
returns `None` descriptors, the descriptor-processing line
`np.zeros((des.shape[0], 96))` raises `AttributeError`, nothing is stored,
and the error propagates uncaught out of the adapter. -/
theorem C9_orb_zero_keypoints (E : OrbExt)
    (s : FMaps (List (List ℚ)) (List (List ℕ))) (im : ImgPath)
    (hdet : E.detect im = []) (hcomp : E.compute im [] = ([], none)) :
    orbMethod E s [im] = (s, .error .attributeError) :=
  methodOf_single_err (orbOne E) s im .attributeError (orbOne_err E im hdet hcomp)

theorem C9_witness :
    wOrbExtE.detect wIm = [] ∧ wOrbExtE.compute wIm [] = ([], none) ∧
    orbMethod wOrbExtE emptyMaps [wIm] = (emptyMaps, .error .attributeError) :=
  ⟨rfl, rfl, C9_orb_zero_keypoints wOrbExtE emptyMaps wIm rfl rfl⟩

/-- Claim C8: for the ORB backend, an image with `k ≥ 1` detected
keypoints gets a stored keypoint array of shape `(k, 4)`: each row is the
two image coordinates followed by a constant 1 and a constant 0. -/
theorem C8_orb_keypoint_schema (E : OrbExt)
    (s : FMaps (List (List ℚ)) (List (List ℕ))) (im : ImgPath)
    (kp2 : List OrbKpt) (raw : List (List ℕ))
    (hc : E.compute im (E.detect im) = (kp2, some raw))
    (_hk : 1 ≤ kp2.length) :
    (orbMethod E s [im]).1.kpts im.stem = some (orbKpts kp2) ∧
    (orbKpts kp2).length = kp2.length ∧
    orbKpts kp2 = kp2.map fun p => [p.x, p.y, 1, 0] := by
  refine ⟨?_, orbKpts_length kp2, orbKpts_eq_map kp2⟩
  have h1 := orbOne_ok E im kp2 raw hc
  have h2 := methodOf_single_ok (orbOne E) s im _ _ _ h1
  show (methodOf (orbOne E) s [im]).1.kpts im.stem = _
  rw [h2]
  simp [FMaps.insert]

theorem C8_witness :
    wOrbExt.compute wIm (wOrbExt.detect wIm) = ([⟨1, 2⟩], some wRaw) ∧
    1 ≤ [(⟨1, 2⟩ : OrbKpt)].length ∧
    (orbMethod wOrbExt emptyMaps [wIm]).1.kpts wIm.stem = some (orbKpts [⟨1, 2⟩]) :=
  ⟨rfl, by decide,
   (C8_orb_keypoint_schema wOrbExt emptyMaps wIm [⟨1, 2⟩] wRaw rfl (by decide)).1⟩

/-- Claim C2 (amended): for every backend and every pair of image inputs
on which the two dispatched calls succeed, `LocalFeatureExtractor.run`
returns three lists of length exactly 2 whose i-th entries are the three
components returned by dispatching the configured method on the singleton
list holding the i-th image (im0 first, then im1).  For the path-based
backends those components are the adapter's accumulated keypoint and
descriptor mappings at that point — not the i-th image's arrays alone
(see the counterexample) — while the lafs list is per-image. -/
theorem C2_run_pair_structure (extract : σ → List I → σ × Except PyErr (A × B × C))
    (s s1 s2 : σ) (im0 im1 : I) (t0 t1 : A × B × C)
    (h0 : extract s [im0] = (s1, .ok t0)) (h1 : extract s1 [im1] = (s2, .ok t1)) :
    runPair extract s im0 im1 =
      (s2, .ok ([t0.1, t1.1], [t0.2.1, t1.2.1], [t0.2.2, t1.2.2])) ∧
    [t0.1, t1.1].length = 2 ∧ [t0.2.1, t1.2.1].length = 2 ∧
    [t0.2.2, t1.2.2].length = 2 := by
  refine ⟨?_, rfl, rfl, rfl⟩
  simp [runPair, h0, h1]

/-- Claim C2 counterexample: with the DISK backend over `cexDiskExt` and a
fresh adapter, running the pair of images with stems `a` and `b` gives a
`keypoints` list whose SECOND entry still maps the FIRST image's stem `a`
to its keypoint array: the entries are the adapter's accumulated
mappings, not the per-image keypoints of the respective image. -/
theorem C2_counterexample :
    ((runPair (diskMethod cexDiskExt 8) emptyMaps ⟨"a"⟩ ⟨"b"⟩).2.toOption.map
      fun t => (t.1.getD 1 fun _ => none) "a") = some (some [[1, 2]]) := rfl

theorem C2_witness :
    diskMethod cexDiskExt 8 emptyMaps [⟨"a"⟩] =
      (cexSA, .ok (cexSA.kpts, cexSA.descriptors, (none : Option Unit))) ∧
    diskMethod cexDiskExt 8 cexSA [⟨"b"⟩] =
      (cexSB, .ok (cexSB.kpts, cexSB.descriptors, (none : Option Unit))) ∧
    runPair (diskMethod cexDiskExt 8) emptyMaps ⟨"a"⟩ ⟨"b"⟩ =
      (cexSB, .ok ([cexSA.kpts, cexSB.kpts], [cexSA.descriptors, cexSB.descriptors],
        [none, none])) :=
  ⟨rfl, rfl,
   (C2_run_pair_structure (diskMethod cexDiskExt 8) emptyMaps cexSA cexSB ⟨"a"⟩ ⟨"b"⟩
     (cexSA.kpts, cexSA.descriptors, none) (cexSB.kpts, cexSB.descriptors, none)
     rfl rfl).1⟩

/-- Claim C5 (amended): for every method-name string that names no
attribute of the constructed `LocalFeatures` instance, construction
succeeds performing only the four unconditional assignments — no
validation of the name happens in `__init__` — and the first `run` call
fails with an attribute-lookup error at the `getattr`.  (For a string
naming a non-callable attribute, such as `kpts`, the first call fails
with a `TypeError` instead: see the counterexample.) -/
theorem C5_unknown_method_lookup (m : String) (h1 : m ∉ classMethodAttrs)
    (h2 : m ∉ instanceDataAttrs m) :
    instanceDataAttrs m = ["n_features", "method", "kpts", "descriptors"] ∧
    runDispatch m = .attrError := by
  constructor
  · simp only [classMethodAttrs, List.mem_cons, List.not_mem_nil, or_false,
      not_or] at h1
    obtain ⟨_, _, _, hORB, hALIKE, hDISK, hSP, hKN⟩ := h1
    simp [instanceDataAttrs, hORB, hALIKE, hDISK, hSP, hKN]
  · unfold runDispatch
    rw [if_neg h1, if_neg h2]

/-- Claim C5 counterexample: the string `kpts` is not one of the five
backend names, yet the first `run` call with it does not fail with an
attribute-lookup error: `getattr` finds the instance dictionary
`self.kpts`, and calling it raises a `TypeError` (dict is not callable). -/
theorem C5_counterexample :
    "kpts" ∉ backendNames ∧ runDispatch "kpts" = .notCallable ∧
    runDispatch "kpts" ≠ .attrError := by decide

theorem C5_witness :
    "FOO" ∉ classMethodAttrs ∧ "FOO" ∉ instanceDataAttrs "FOO" ∧
    instanceDataAttrs "FOO" = ["n_features", "method", "kpts", "descriptors"] ∧
    runDispatch "FOO" = .attrError := by
  have h1 : "FOO" ∉ classMethodAttrs := by decide
  have h2 : "FOO" ∉ instanceDataAttrs "FOO" := by decide
  exact ⟨h1, h2, C5_unknown_method_lookup "FOO" h1 h2⟩

/-- Claim C3 (amended): every successful call of a path-based backend
method (ORB, DISK, SuperPoint, KeyNetAffNetHardNet — each is `methodOf`
applied to its per-image step, see the definitional conjuncts) mutates the
adapter's keypoint and descriptor mappings in place, inserting under each
processed image's stem the arrays computed for that image (exactly those
arrays when the stems are pairwise distinct), and returns the accumulated
mappings themselves.  ALIKE does NOT: it leaves the mappings untouched and
returns the last image's raw keypoint and descriptor arrays instead (see
the counterexample). -/
theorem C3_store_by_stem_and_return_mappings :
    (∀ (K D L : Type) (step : ImgPath → Except PyErr (K × D × L))
      (s : FMaps K D) (ims : List ImgPath) (s' : FMaps K D)
      (r : (String → Option K) × (String → Option D) × L),
      methodOf step s ims = (s', .ok r) →
      r.1 = s'.kpts ∧ r.2.1 = s'.descriptors ∧
      (∀ im ∈ ims, (s'.kpts im.stem).isSome ∧ (s'.descriptors im.stem).isSome) ∧
      ((ims.map ImgPath.stem).Nodup →
        ∀ im ∈ ims, ∀ k d l, step im = .ok (k, d, l) →
          s'.kpts im.stem = some k ∧ s'.descriptors im.stem = some d)) ∧
    (∀ (E : OrbExt), orbMethod E = methodOf (orbOne E)) ∧
    (∀ (T K D : Type) (E : DiskExt T K D) (nf : ℕ),
      diskMethod E nf = methodOf (diskOne E nf)) ∧
    (∀ (α β : Type) (E : SpExt α β) (nf : ℕ), spMethod E nf = methodOf (spOne E nf)) ∧
    (∀ (α ρ : Type) (E : KnExt α ρ) (nf : ℕ), knMethod E nf = methodOf (knOne E nf)) ∧
    (∀ (I K D K' D' : Type) (model : I → AlFeat K D) (s : FMaps K' D') (ims : List I),
      (alikeMethod model s ims).1 = s) := by
  refine ⟨?_, fun _ => rfl, fun _ _ _ _ _ => rfl, fun _ _ _ _ => rfl,
    fun _ _ _ _ => rfl, fun _ _ _ _ _ model s ims => alikeMethod_fst model s ims⟩
  intro K D L step s ims s' r h
  obtain ⟨hrun, hk, hd⟩ := methodOf_ok_inv step s s' ims r h
  refine ⟨hk, hd, runLoop_mem_isSome step ims s none s' (some r.2.2) hrun, ?_⟩
  intro hnd im him k d l hstep
  exact runLoop_values_nodup step ims s none s' (some r.2.2) hnd hrun im him k d l hstep

/-- Claim C3 counterexample: a successful ALIKE call on one pre-loaded
image leaves the adapter's mappings exactly as they were (here: the empty
dictionaries — no key is inserted) and returns the model's raw arrays,
not the accumulated mapping. -/
theorem C3_counterexample :
    alikeMethod cexAlModel (emptyMaps : FMaps (List (List ℚ)) (List (List ℚ))) [()] =
      (emptyMaps, .ok ([[1, 2]], [[3]], none)) ∧
    (emptyMaps : FMaps (List (List ℚ)) (List (List ℚ))).kpts "x" = none :=
  ⟨rfl, rfl⟩

theorem C3_witness :
    methodOf (diskOne cexDiskExt 8) emptyMaps [⟨"a"⟩] =
      (cexSA, .ok (cexSA.kpts, cexSA.descriptors, (none : Option Unit))) ∧
    (cexSA.kpts "a").isSome ∧ (cexSA.descriptors "a").isSome := by
  have h : methodOf (diskOne cexDiskExt 8) emptyMaps [⟨"a"⟩] =
      (cexSA, .ok (cexSA.kpts, cexSA.descriptors, (none : Option Unit))) := rfl
  have h2 := (C3_store_by_stem_and_return_mappings.1 _ _ _ (diskOne cexDiskExt 8)
    emptyMaps [⟨"a"⟩] cexSA (cexSA.kpts, cexSA.descriptors, none) h).2.2.1
    ⟨"a"⟩ (List.mem_singleton.mpr rfl)
  exact ⟨h, h2.1, h2.2⟩

/-! ### Helper lemmas: the value of the returned laf -/

theorem methodOf_ok_laf (step : ImgPath → Except PyErr (K × D × L)) (P : L → Prop)
    (hstep : ∀ im k d l, step im = .ok (k, d, l) → P l)
    (s s' : FMaps K D) (ims : List ImgPath)
    (r : (String → Option K) × (String → Option D) × L)
    (h : methodOf step s ims = (s', .ok r)) : P r.2.2 := by
  obtain ⟨hrun, _, _⟩ := methodOf_ok_inv step s s' ims r h
  refine runLoop_laf_inv step P hstep ims s none s' (some r.2.2) none hrun ?_ r.2.2 rfl
  intro l0 h0
  exact absurd h0 (by simp)

theorem orbOne_laf (E : OrbExt) (im : ImgPath) (k : List (List ℚ))
    (d : List (List ℕ)) (l : Option Unit) (h : orbOne E im = .ok (k, d, l)) :
    l = none := by
  rcases hc : E.compute im (E.detect im) with ⟨kp2, desOpt⟩
  unfold orbOne at h
  rw [hc] at h
  cases desOpt with
  | none => simp at h
  | some raw =>
    simp only [Except.ok.injEq, Prod.mk.injEq] at h
    exact h.2.2.symm

theorem diskOne_laf (E : DiskExt T K D) (nf : ℕ) (im : ImgPath) (k : K) (d : D)
    (l : Option Unit) (h : diskOne E nf im = .ok (k, d, l)) : l = none := by
  unfold diskOne at h
  cases hf : E.forward (E.loadRGB im) nf with
  | nil => rw [hf] at h; simp at h
  | cons f rest =>
    rw [hf] at h
    simp only [Except.ok.injEq, Prod.mk.injEq] at h
    exact h.2.2.symm

theorem spOne_laf (E : SpExt α β) (nf : ℕ) (im : ImgPath) (k : List (List α))
    (d : List (List β)) (l : Option Unit) (h : spOne E nf im = .ok (k, d, l)) :
    l = none := by
  unfold spOne at h
  simp only [Except.ok.injEq, Prod.mk.injEq] at h
  exact h.2.2.symm

/-- Claim C4: every backend other than KeyNetAffNetHardNet (ORB, ALIKE,
DISK, SuperPoint) returns `laf = None` on every successful call;
KeyNetAffNetHardNet is the only backend returning a non-null LAF — the
full affine-frame tensor of the (last) processed image, from which the
keypoints stored for that image are sliced by `[-1, :, :, -1]`. -/
theorem C4_laf_none_except_keynet :
    (∀ (E : OrbExt) (s : FMaps (List (List ℚ)) (List (List ℕ)))
      (ims : List ImgPath) (s' : FMaps (List (List ℚ)) (List (List ℕ)))
      (r : (String → Option (List (List ℚ))) × (String → Option (List (List ℕ)))
        × Option Unit),
      orbMethod E s ims = (s', .ok r) → r.2.2 = none) ∧
    (∀ (T K D : Type) (E : DiskExt T K D) (nf : ℕ) (s : FMaps K D)
      (ims : List ImgPath) (s' : FMaps K D)
      (r : (String → Option K) × (String → Option D) × Option Unit),
      diskMethod E nf s ims = (s', .ok r) → r.2.2 = none) ∧
    (∀ (α β : Type) (E : SpExt α β) (nf : ℕ)
      (s : FMaps (List (List α)) (List (List β))) (ims : List ImgPath) (s' : _)
      (r : (String → Option (List (List α))) × (String → Option (List (List β)))
        × Option Unit),
      spMethod E nf s ims = (s', .ok r) → r.2.2 = none) ∧
    (∀ (I K D K' D' : Type) (model : I → AlFeat K D) (s : FMaps K' D')
      (ims : List I) (s' : FMaps K' D') (r : K × D × Option Unit),
      alikeMethod model s ims = (s', .ok r) → r.2.2 = none) ∧
    (∀ (α ρ : Type) (E : KnExt α ρ) (nf : ℕ)
      (s : FMaps (List (List α)) (List (List α))) (ims : List ImgPath) (s' : _)
      (r : (String → Option (List (List α))) × (String → Option (List (List α)))
        × List (List (List (List α)))),
      knMethod E nf s ims = (s', .ok r) →
      ∃ im, ims.getLast? = some im ∧ r.2.2 = (E.forward nf im).laf ∧
        ∃ kp, knSliceKpts ((E.forward nf im).laf) = .ok kp ∧
          s'.kpts im.stem = some kp) := by
  refine ⟨?_, ?_, ?_, ?_, ?_⟩
  · intro E s ims s' r h
    exact methodOf_ok_laf (orbOne E) (fun l => l = none) (orbOne_laf E) s s' ims r h
  · intro T K D E nf s ims s' r h
    exact methodOf_ok_laf (diskOne E nf) (fun l => l = none) (diskOne_laf E nf)
      s s' ims r h
  · intro α β E nf s ims s' r h
    exact methodOf_ok_laf (spOne E nf) (fun l => l = none) (spOne_laf E nf) s s' ims r h
  · intro I K D K' D' model s ims s' r h
    unfold alikeMethod at h
    cases hfold : ims.foldl (fun _ img => some (model img)) none with
    | none => rw [hfold] at h; simp at h
    | some f =>
      rw [hfold] at h
      simp only [Prod.mk.injEq, Except.ok.injEq] at h
      rw [← h.2]
  · intro α ρ E nf s ims s' r h
    obtain ⟨hrun, _, _⟩ := methodOf_ok_inv (knOne E nf) s s' ims r h
    rcases runLoop_last (knOne E nf) ims s none s' r.2.2 hrun with h1 | h1
    · exact absurd h1.2.2 (by simp)
    · obtain ⟨im, k, d, hlast, hstep, hkpts, _⟩ := h1
      obtain ⟨hslice, _, hlaf⟩ := knOne_ok_inv E nf im k d r.2.2 hstep
      exact ⟨im, hlast, hlaf, k, hslice, hkpts⟩

theorem C4_witness :
    knMethod wKnExt 1 emptyMaps [wIm] =
      (wKnS, .ok (wKnS.kpts, wKnS.descriptors, [[[[5, 6, 7], [8, 9, 10]]]])) ∧
    (∃ im, [wIm].getLast? = some im ∧
      ([[[[5, 6, 7], [8, 9, 10]]]] : List (List (List (List ℚ)))) =
        (wKnExt.forward 1 im).laf ∧
      ∃ kp, knSliceKpts ((wKnExt.forward 1 im).laf) = .ok kp ∧
        wKnS.kpts im.stem = some kp) := by
  have h : knMethod wKnExt 1 emptyMaps [wIm] =
      (wKnS, .ok (wKnS.kpts, wKnS.descriptors, [[[[5, 6, 7], [8, 9, 10]]]])) := rfl
  exact ⟨h, C4_laf_none_except_keynet.2.2.2.2 ℚ Unit wKnExt 1 emptyMaps [wIm] wKnS _ h⟩

/-! ### Helper lemmas: per-step row counts for claim C6 -/

theorem diskOne_rows (E : DiskExt T (List κ) (List δ)) (nf : ℕ) (im : ImgPath)
    (hrows : ∀ f rest, E.forward (E.loadRGB im) nf = f :: rest →
      f.keypoints.length = f.descriptors.length) :
    ∀ k d l, diskOne E nf im = .ok (k, d, l) → k.length = d.length := by
  intro k d l h
  unfold diskOne at h
  cases hf : E.forward (E.loadRGB im) nf with
  | nil => rw [hf] at h; simp at h
  | cons f rest =>
    rw [hf] at h
    simp only [Except.ok.injEq, Prod.mk.injEq] at h
    rw [← h.1, ← h.2.1]
    exact hrows f rest hf

theorem spOne_rows (E : SpExt α β) (nf : ℕ) (im : ImgPath)
    (hrows : List.Forall₂ (fun a b => a.length = b.length)
      (E.extract nf im).1 (E.extract nf im).2) :
    ∀ k d l, spOne E nf im = .ok (k, d, l) → k.length = d.length := by
  intro k d l h
  unfold spOne at h
  simp only [Except.ok.injEq, Prod.mk.injEq] at h
  rw [← h.1, ← h.2.1]
  exact flatten_length_eq_of_forall2 _ _ hrows

theorem knOne_rows (E : KnExt α ρ) (nf : ℕ) (im : ImgPath)
    (hrows : ∀ lb db, (E.forward nf im).laf.getLast? = some lb →
      (E.forward nf im).desc.getLast? = some db → lb.length = db.length) :
    ∀ k d l, knOne E nf im = .ok (k, d, l) → k.length = d.length := by
  intro k d l h
  obtain ⟨hslice, hlastd, _⟩ := knOne_ok_inv E nf im k d l h
  unfold knSliceKpts at hslice
  cases hlb : lastE (E.forward nf im).laf with
  | error e => rw [hlb] at hslice; simp [Bind.bind, Except.bind] at hslice
  | ok lb =>
    rw [hlb] at hslice
    simp only [Bind.bind, Except.bind] at hslice
    have h1 : k.length = lb.length := mapM_ok_length _ lb k hslice
    have h2 := hrows lb d ((lastE_ok_iff _ _).mp hlb) ((lastE_ok_iff _ _).mp hlastd)
    rw [h1, h2]

/-- Claim C6: for every backend, the descriptor array stored for an image
has first dimension equal to that of the keypoint array stored for the
same image.  Under the external contracts (OpenCV returns as many
descriptor rows as keypoints; the DISK/SuperPoint/kornia models return
equally many keypoints and descriptors), every backend call preserves the
row-alignment invariant of the two dictionaries; ALIKE preserves it
trivially since it stores nothing. -/
theorem C6_row_alignment :
    (∀ (E : OrbExt) (s : FMaps (List (List ℚ)) (List (List ℕ)))
      (ims : List ImgPath),
      (∀ im ∈ ims, ∀ kp2 raw, E.compute im (E.detect im) = (kp2, some raw) →
        raw.length = kp2.length) →
      alignedMaps s → alignedMaps (orbMethod E s ims).1) ∧
    (∀ (T κ δ : Type) (E : DiskExt T (List κ) (List δ)) (nf : ℕ)
      (s : FMaps (List κ) (List δ)) (ims : List ImgPath),
      (∀ im ∈ ims, ∀ f rest, E.forward (E.loadRGB im) nf = f :: rest →
        f.keypoints.length = f.descriptors.length) →
      alignedMaps s → alignedMaps (diskMethod E nf s ims).1) ∧
    (∀ (α β : Type) (E : SpExt α β) (nf : ℕ)
      (s : FMaps (List (List α)) (List (List β))) (ims : List ImgPath),
      (∀ im ∈ ims, List.Forall₂ (fun a b => a.length = b.length)
        (E.extract nf im).1 (E.extract nf im).2) →
      alignedMaps s → alignedMaps (spMethod E nf s ims).1) ∧
    (∀ (α ρ : Type) (E : KnExt α ρ) (nf : ℕ)
      (s : FMaps (List (List α)) (List (List α))) (ims : List ImgPath),
      (∀ im ∈ ims, ∀ lb db, (E.forward nf im).laf.getLast? = some lb →
        (E.forward nf im).desc.getLast? = some db → lb.length = db.length) →
      alignedMaps s → alignedMaps (knMethod E nf s ims).1) ∧
    (∀ (I K D : Type) (κ δ : Type) (model : I → AlFeat K D)
      (s : FMaps (List κ) (List δ)) (ims : List I),
      alignedMaps s → alignedMaps (alikeMethod model s ims).1) := by
  refine ⟨?_, ?_, ?_, ?_, ?_⟩
  · intro E s ims hc hs
    rw [show (orbMethod E s ims).1 = (runLoop (orbOne E) s none ims).1 from
      methodOf_fst (orbOne E) s ims]
    exact runLoop_aligned (orbOne E) ims
      (fun im him => orbOne_rows E im (hc im him)) s none hs
  · intro T κ δ E nf s ims hc hs
    rw [show (diskMethod E nf s ims).1 = (runLoop (diskOne E nf) s none ims).1 from
      methodOf_fst (diskOne E nf) s ims]
    exact runLoop_aligned (diskOne E nf) ims
      (fun im him => diskOne_rows E nf im (hc im him)) s none hs
  · intro α β E nf s ims hc hs
    rw [show (spMethod E nf s ims).1 = (runLoop (spOne E nf) s none ims).1 from
      methodOf_fst (spOne E nf) s ims]
    exact runLoop_aligned (spOne E nf) ims
      (fun im him => spOne_rows E nf im (hc im him)) s none hs
  · intro α ρ E nf s ims hc hs
    rw [show (knMethod E nf s ims).1 = (runLoop (knOne E nf) s none ims).1 from
      methodOf_fst (knOne E nf) s ims]
    exact runLoop_aligned (knOne E nf) ims
      (fun im him => knOne_rows E nf im (hc im him)) s none hs
  · intro I K D κ δ model s ims hs
    rw [alikeMethod_fst model s ims]
    exact hs

theorem C6_witness :
    (∀ im ∈ [ImgPath.mk "a"], ∀ f rest,
      cexDiskExt.forward (cexDiskExt.loadRGB im) 8 = f :: rest →
      f.keypoints.length = f.descriptors.length) ∧
    alignedMaps (emptyMaps : FMaps (List (List ℚ)) (List (List ℚ))) ∧
    alignedMaps (diskMethod cexDiskExt 8 emptyMaps [ImgPath.mk "a"]).1 := by
  have hc : ∀ im ∈ [ImgPath.mk "a"], ∀ f rest,
      cexDiskExt.forward (cexDiskExt.loadRGB im) 8 = f :: rest →
      f.keypoints.length = f.descriptors.length := by
    intro im _ f rest h
    injection h with h1 _
    rw [← h1]
    rfl
  have ha : alignedMaps (emptyMaps : FMaps (List (List ℚ)) (List (List ℚ))) :=
    fun _ => rfl
  exact ⟨hc, ha,
    C6_row_alignment.2.1 Unit (List ℚ) (List ℚ) cexDiskExt 8 emptyMaps
      [ImgPath.mk "a"] hc ha⟩

/-- Claim C1: for the ORB backend, an image yielding `k ≥ 1` keypoints
(whose raw OpenCV descriptor matrix has `k` rows of 32 bytes, none of them
all-zero) gets a stored and returned descriptor array of shape `(k, 128)`
with every entry in `[0, 255]`, and every row of the intermediate matrix
immediately before the rounding step — the zero-padded, rectified,
rescaled rows — has L2 norm exactly 512. -/
theorem C1_orb_descriptor_pipeline (E : OrbExt)
    (s : FMaps (List (List ℚ)) (List (List ℕ))) (im : ImgPath)
    (kp2 : List OrbKpt) (raw : List (List ℕ))
    (hc : E.compute im (E.detect im) = (kp2, some raw))
    (hlen : raw.length = kp2.length)
    (_hk : 1 ≤ kp2.length)
    (h32 : ∀ r ∈ raw, r.length = 32)
    (hnz : ∀ r ∈ raw, ∃ x ∈ r, x ≠ 0) :
    (orbMethod E s [im]).1.descriptors im.stem = some (orbDes raw) ∧
    (orbMethod E s [im]).2 =
      .ok ((orbMethod E s [im]).1.kpts, (orbMethod E s [im]).1.descriptors, none) ∧
    (orbDes raw).length = kp2.length ∧
    (∀ row ∈ orbDes raw, row.length = 128 ∧ ∀ x ∈ row, x ≤ 255) ∧
    (∀ r ∈ raw, l2normR (orbScale (orbAbs (orbPad r))) = 512) := by
  have h1 := orbOne_ok E im kp2 raw hc
  have h2 := methodOf_single_ok (orbOne E) s im _ _ _ h1
  refine ⟨?_, ?_, ?_, ?_, ?_⟩
  · show (methodOf (orbOne E) s [im]).1.descriptors im.stem = _
    rw [h2]
    simp [FMaps.insert]
  · unfold orbMethod
    rw [h2]
  · rw [orbDes_length, hlen]
  · intro row hrow
    simp only [orbDes, List.mem_map] at hrow
    obtain ⟨r, hr, hrow⟩ := hrow
    subst hrow
    exact ⟨orbDesRow_length r (h32 r hr), orbU8_le _⟩
  · intro r hr
    obtain ⟨x, hx, hnzx⟩ := hnz r hr
    exact l2normR_orbScale _ (sumSqR_orbAbs_orbPad_pos r x hx hnzx)

theorem C1_witness :
    wOrbExt.compute wIm (wOrbExt.detect wIm) = ([⟨1, 2⟩], some wRaw) ∧
    wRaw.length = [(⟨1, 2⟩ : OrbKpt)].length ∧
    (∀ r ∈ wRaw, r.length = 32) ∧ (∀ r ∈ wRaw, ∃ x ∈ r, x ≠ 0) ∧
    (orbMethod wOrbExt emptyMaps [wIm]).1.descriptors wIm.stem =
      some (orbDes wRaw) ∧
    (∀ r ∈ wRaw, l2normR (orbScale (orbAbs (orbPad r))) = 512) := by
  have h1 : wOrbExt.compute wIm (wOrbExt.detect wIm) = ([⟨1, 2⟩], some wRaw) := rfl
  have h2 : wRaw.length = [(⟨1, 2⟩ : OrbKpt)].length := rfl
  have h3 : ∀ r ∈ wRaw, r.length = 32 := by decide
  have h4 : ∀ r ∈ wRaw, ∃ x ∈ r, x ≠ 0 := by decide
  have h5 := C1_orb_descriptor_pipeline wOrbExt emptyMaps wIm [⟨1, 2⟩] wRaw h1 h2
    (by decide) h3 h4
  exact ⟨h1, h2, h3, h4, h5.1, h5.2.2.2.2⟩
